import Mathlib

/-!
Verification of `src/bow_dbnl.py` (DBNL bag-of-words pipeline).

The Python program is a linear batch pipeline:
`get_files` (os.walk discovery) → `pick_random` (seeded shuffle + slice) →
`extract_tei` (split at `<body>`, strip tags, clean, sentence-tokenize) →
`create_bow` (word-tokenize, filter length > 2, count, stable descending sort) →
`output_bow` (truncate, write TSV).

This file gives a shallow embedding of each stage and proves the specified
properties about them.  External collaborators of the program are passed as
parameters of the embedding:

* `nltk.sent_tokenize` appears as a parameter `sent_tokenize : List Char → List (List Char)`;
* `nltk.word_tokenize` appears as a parameter `word_tokenize : String → List String`;
* `random.shuffle` (seeded Mersenne Twister) appears as a parameter
  `shuffle : List String → List String`; the seed fixes which permutation it
  applies, so theorems assume only `(shuffle l).Perm l`;
* the filesystem appears as an `Option FSTree` (with `none` standing for a
  root path that does not exist or cannot be read).

Python text is modelled at `List Char` granularity in the extraction stage
(where the program manipulates raw text with regexes) and at `String`
granularity in the counting stage.  `Char.toLower`/`Char.isAlphanum` are the
ASCII approximations of Python's Unicode-aware `str.lower`/`\w`; all concrete
inputs used in this development are ASCII, where the two agree.
-/

deriving instance DecidableEq for Except

namespace BowDbnl

/-! ## Text extraction (`extract_tei`, lines 91-131 of `bow_dbnl.py`) -/

/-- Character list of the literal body marker `<body>` used by
`re.split(r'<body>', tei)` (the pattern contains no regex metacharacters,
so the split is a literal split). -/
def bodyMarker : List Char := ['<', 'b', 'o', 'd', 'y', '>']

/-- Prepend a character to the first segment of a split result. -/
def consHead (c : Char) : List (List Char) → List (List Char)
  | [] => [[c]]
  | s :: ss => (c :: s) :: ss

/-- Embedding of `re.split(r'<body>', tei)`: split at every (leftmost,
non-overlapping) occurrence of the literal marker `<body>`.  The result always
has at least one segment; it has at least two exactly when the marker occurs. -/
def bodySplit : List Char → List (List Char)
  | '<' :: 'b' :: 'o' :: 'd' :: 'y' :: '>' :: rest => [] :: bodySplit rest
  | c :: rest => consHead c (bodySplit rest)
  | [] => [[]]

/-- Whether the literal marker `<body>` occurs somewhere in the text. -/
def containsBody : List Char → Bool
  | [] => false
  | c :: rest => bodyMarker.isPrefixOf (c :: rest) || containsBody rest

/-- Everything strictly after the first occurrence of `<body>`
(empty if the marker does not occur).  Used to express what the spec asks of
the extractor. -/
def afterFirstBody : List Char → List Char
  | [] => []
  | c :: rest => if bodyMarker.isPrefixOf (c :: rest) then rest.drop 5 else afterFirstBody rest

/-- Everything strictly before the first occurrence of `<body>`
(the whole text if the marker does not occur). -/
def upToBody : List Char → List Char
  | [] => []
  | c :: rest => if bodyMarker.isPrefixOf (c :: rest) then [] else c :: upToBody rest

/-- Embedding of `tei_body[1].replace('\n', ' ')`. -/
def removeNewlines (l : List Char) : List Char :=
  l.map fun c => if c = '\n' then ' ' else c

/-- Index of the last `'>'` in a list, if any. -/
def lastGtIdx : List Char → Option Nat
  | [] => none
  | c :: rest =>
    match lastGtIdx rest with
    | some j => some (j + 1)
    | none => if c = '>' then some 0 else none

/-- Fuelled embedding of `re.sub(r'<[^<]+>', '', s)`.

A match starts at a `'<'`; the greedy `[^<]+` followed by `'>'` consumes, after
backtracking, up to the last `'>'` that lies in the run of non-`'<'` characters
following the `'<'`, provided that `'>'` is not the character immediately after
the `'<'` (the `+` requires at least one character between the brackets).
If no such `'>'` exists there is no match at this `'<'` and scanning continues.

Each recursive call is on a strictly shorter list, so fuel equal to the length
of the input (see `removeTags`) is never exhausted: the `0` case can only be
reached with `l = []`, where returning `l` is exact. -/
def removeTagsF : Nat → List Char → List Char
  | 0, l => l
  | _ + 1, [] => []
  | fuel + 1, c :: rest =>
    if c = '<' then
      match lastGtIdx (rest.takeWhile (fun d => d ≠ '<')) with
      | some j =>
        if 1 ≤ j then
          (rest.takeWhile (fun d => d ≠ '<')).drop (j + 1)
            ++ removeTagsF fuel (rest.dropWhile (fun d => d ≠ '<'))
        else c :: removeTagsF fuel rest
      | none => c :: removeTagsF fuel rest
    else c :: removeTagsF fuel rest

/-- Embedding of `re.sub(r'<[^<]+>', '', s)` (remove all markup tags). -/
def removeTags (l : List Char) : List Char := removeTagsF l.length l

/-- Embedding of `re.sub('&nbsp;', ' ', s)`. -/
def subNbsp : List Char → List Char
  | '&' :: 'n' :: 'b' :: 's' :: 'p' :: ';' :: rest => ' ' :: subNbsp rest
  | c :: rest => c :: subNbsp rest
  | [] => []

/-- Embedding of `re.sub('&amp;', ' ', s)`. -/
def subAmp : List Char → List Char
  | '&' :: 'a' :: 'm' :: 'p' :: ';' :: rest => ' ' :: subAmp rest
  | c :: rest => c :: subAmp rest
  | [] => []

/-- Word character for `\W` (ASCII approximation of Python's Unicode `\w`:
letters, digits and underscore). -/
def isWordChar (c : Char) : Bool := c.isAlphanum || c = '_'

/-- Embedding of `re.sub(r'\W', ' ', s)`: replace every non-word character by
a space. -/
def subNonWord (l : List Char) : List Char :=
  l.map fun c => if isWordChar c then c else ' '

/-- Python regex whitespace class `\s`. -/
def isPySpace (c : Char) : Bool :=
  c = ' ' || c = '\t' || c = '\n' || c = '\r' || c = '\x0b' || c = '\x0c'

/-- State-carrying helper for `collapseWs`: the flag records whether the
previous character belonged to a whitespace run already replaced. -/
def collapseWsAux : Bool → List Char → List Char
  | _, [] => []
  | inRun, c :: rest =>
    if isPySpace c then
      if inRun then collapseWsAux true rest else ' ' :: collapseWsAux true rest
    else c :: collapseWsAux false rest

/-- Embedding of `re.sub(r'\s+', ' ', s)`: each maximal run of whitespace is
replaced by a single space. -/
def collapseWs (l : List Char) : List Char := collapseWsAux false l

/-- Per-sentence cleaning applied inside the loop of `extract_tei`
(lines 126-129): `&nbsp;` → space, `&amp;` → space, `\W` → space, collapse
whitespace. -/
def cleanSentence (s : List Char) : List Char :=
  collapseWs (subNonWord (subAmp (subNbsp s)))

/-- Processing applied to the selected body segment (lines 120-130): replace
newlines, strip tags, lowercase, sentence-tokenize, clean each sentence. -/
def processBody (sent_tokenize : List Char → List (List Char)) (body : List Char) :
    List (List Char) :=
  (sent_tokenize ((removeTags (removeNewlines body)).map Char.toLower)).map cleanSentence

/-- Extraction of one document (the loop body of `extract_tei`): split at
`<body>` and process `tei_body[1]`.  When the marker is absent the split has a
single segment and the Python subscript `tei_body[1]` raises an `IndexError`,
modelled as `Except.error "IndexError"`. -/
def extract_doc (sent_tokenize : List Char → List (List Char)) (tei : List Char) :
    Except String (List (List Char)) :=
  match bodySplit tei with
  | _ :: tei_body1 :: _ => Except.ok (processBody sent_tokenize tei_body1)
  | _ => Except.error "IndexError"

/-- Embedding of `extract_tei`: documents are given by their contents (the
file read is pure text input here); sentences of all documents are appended
into one flat list, and a raised `IndexError` aborts the whole loop. -/
def extract_tei (sent_tokenize : List Char → List (List Char))
    (tei_files : List (List Char)) : Except String (List (List Char)) :=
  tei_files.foldlM
    (fun flat_text tei => (extract_doc sent_tokenize tei).map (fun s => flat_text ++ s)) []

/-- Modelled from the spec: the spec's text extractor contract, "take
everything after the first occurrence" of the body marker, with the absent
marker a fatal error for the file.  This definition follows the spec's words
(for comparison against `extract_doc`, which follows the code). -/
def extract_doc_spec (sent_tokenize : List Char → List (List Char)) (tei : List Char) :
    Except String (List (List Char)) :=
  if containsBody tei then
    Except.ok (processBody sent_tokenize (afterFirstBody tei))
  else
    Except.error "IndexError"

/-- Identity-like sentence tokenizer (one sentence per text), used to
instantiate the external `nltk.sent_tokenize` parameter on concrete inputs. -/
def sentIdent : List Char → List (List Char) := fun s => [s]

/-! ## Counting (`create_bow`, lines 134-161) -/

/-- One dictionary update of `create_bow`:
`if word not in dict_wordfreq.keys(): dict_wordfreq[word] = 1 else: dict_wordfreq[word] += 1`.
The `OrderedDict` is an association list with pairwise-distinct keys in
insertion order; a fresh key is appended at the end, an existing key is
incremented in place. -/
def bump : List (String × Nat) → String → List (String × Nat)
  | [], w => [(w, 1)]
  | (k, v) :: t, w => if k = w then (k, v + 1) :: t else (k, v) :: bump t w

/-- Processing of one token (`for word in words` loop body): words of length
at most 2 are discarded (`if len(word) > 2`). -/
def countWord (t : List (String × Nat)) (word : String) : List (String × Nat) :=
  if 2 < word.length then bump t word else t

/-- Processing of one sentence: `words = nltk.word_tokenize(sen)` followed by
the token loop. -/
def processSentence (word_tokenize : String → List String)
    (t : List (String × Nat)) (sen : String) : List (String × Nat) :=
  (word_tokenize sen).foldl countWord t

/-- The frequency table (`dict_wordfreq`) built by `create_bow` before
sorting. -/
def create_bow_table (word_tokenize : String → List String)
    (flat_text : List String) : List (String × Nat) :=
  flat_text.foldl (processSentence word_tokenize) []

/-- Comparison used by `sorted(dict_wordfreq.items(), key=lambda x: x[1], reverse=True)`:
`a` may precede `b` exactly when `a`'s count is at least `b`'s. -/
def bowLE (a b : String × Nat) : Bool := decide (b.2 ≤ a.2)

/-- Embedding of `create_bow`: build the table, then sort it by count,
highest first.  Python's `sorted` is a stable sort, and `reverse=True`
reverses the comparison while keeping equal elements in their original
(insertion) order; a stable merge sort under `bowLE` computes exactly that
result. -/
def create_bow (word_tokenize : String → List String)
    (flat_text : List String) : List (String × Nat) :=
  (create_bow_table word_tokenize flat_text).mergeSort bowLE

/-- Number of tokenized occurrences of `w` in one sentence. -/
def occurrences (word_tokenize : String → List String) (w sen : String) : Nat :=
  (word_tokenize sen).count w

/-- Number of tokenized occurrences of `w` summed over all sentences. -/
def totalOccurrences (word_tokenize : String → List String)
    (w : String) (flat_text : List String) : Nat :=
  (flat_text.map (occurrences word_tokenize w)).sum

/-- Combinator describing how a run of `n` occurrences changes a stored
count: an absent entry is created (initialized to 1 on the first occurrence)
only when `n > 0`. -/
def addCount : Option Nat → Nat → Option Nat
  | some v, n => some (v + n)
  | none, n => if n = 0 then none else some n

/-- First-occurrence order of a word stream relative to words already seen:
the order in which fresh keys enter the table. -/
def firstOccAux (seen : List String) : List String → List String
  | [] => []
  | w :: ws => if w ∈ seen then firstOccAux seen ws else w :: firstOccAux (w :: seen) ws

/-- Space-splitting word tokenizer, used to instantiate the external
`nltk.word_tokenize` parameter on concrete inputs. -/
def wordsBySpace (s : String) : List String := s.splitOn " "

/-! ## Output (`output_bow`, lines 164-176) -/

/-- The rows that `output_bow` writes: the requested length is clamped by
`if BOW_LENGTH <= 0 or BOW_LENGTH > len(dict_sorted): BOW_LENGTH = len(dict_sorted)`,
then rows `0, ..., BOW_LENGTH - 1` of the sorted table are taken in order. -/
def output_rows (dict_sorted : List (String × Nat)) (BOW_LENGTH : Int) :
    List (String × Nat) :=
  let n : Nat :=
    if BOW_LENGTH ≤ 0 ∨ (dict_sorted.length : Int) < BOW_LENGTH then dict_sorted.length
    else BOW_LENGTH.toNat
  dict_sorted.take n

/-- Embedding of `output_bow`: the lines written to the output file, one
`word\tcount\n` line per row. -/
def output_bow (dict_sorted : List (String × Nat)) (BOW_LENGTH : Int) : List String :=
  (output_rows dict_sorted BOW_LENGTH).map fun p => p.1 ++ "\t" ++ toString p.2 ++ "\n"

/-! ## Sampler (`pick_random`, lines 179-185) -/

/-- Embedding of `pick_random`.  `random.shuffle(tei_files)` permutes the
caller's list **in place**; the embedding therefore returns a pair: the state
of the list after the call (first component) and the returned slice
`tei_files[:DOCS_USED]` (second component).  The seeded generator is the
`shuffle` parameter. -/
def pick_random (shuffle : List String → List String)
    (tei_files : List String) (DOCS_USED : Int) : List String × List String :=
  let n : Nat :=
    if DOCS_USED ≤ 0 ∨ (tei_files.length : Int) < DOCS_USED then tei_files.length
    else DOCS_USED.toNat
  let shuffled := shuffle tei_files
  (shuffled, shuffled.take n)

/-! ## File discovery (`get_files`, lines 68-88) -/

/-- A directory: its regular file names and its named subdirectories, in
traversal order. -/
inductive FSTree where
  | node : List String → List (String × FSTree) → FSTree

/-- Files found by walking a directory tree top-down (the order of
`os.walk`), keeping names ending in `.xml` and joining them to the directory
path (`os.path.join`). -/
def walkTree (path : String) : FSTree → List String
  | FSTree.node filenames subdirs =>
    (filenames.filter (fun fn => fn.endsWith ".xml")).map (fun fn => path ++ "/" ++ fn)
      ++ subdirs.attach.flatMap (fun sd => walkTree (path ++ "/" ++ sd.1.1) sd.1.2)
termination_by t => sizeOf t
decreasing_by
  have h := List.sizeOf_lt_of_mem sd.2
  obtain ⟨⟨nm, sub⟩, hmem⟩ := sd
  simp only [FSTree.node.sizeOf_spec, Prod.mk.sizeOf_spec] at *
  omega

/-- Embedding of `get_files`.  `os.walk` is called with its default
`onerror=None`, which swallows the `OSError` raised by listing a missing or
unreadable root and simply yields no entries; `none` models such a root. -/
def get_files (path_batch : String) (root : Option FSTree) : List String :=
  match root with
  | none => []
  | some t => walkTree path_batch t

/-- Modelled from the spec: the spec's file-discovery contract, which "fails
with a `NotFound` condition if the root path does not exist or is not
readable".  This definition follows the spec's words (for comparison against
`get_files`, which follows the code). -/
def get_files_spec (path_batch : String) (root : Option FSTree) :
    Except String (List String) :=
  match root with
  | none => Except.error "NotFound"
  | some t => Except.ok (walkTree path_batch t)

/-! ## Lemmas: the frequency table -/

theorem lookup_bump_self (t : List (String × Nat)) (w : String) :
    List.lookup w (bump t w) = some ((List.lookup w t).getD 0 + 1) := by
  induction t with
  | nil => simp [bump, List.lookup]
  | cons p t ih =>
    obtain ⟨k, v⟩ := p
    by_cases h : k = w
    · subst h
      simp [bump, List.lookup]
    · have hb : (w == k) = false := beq_eq_false_iff_ne.mpr (fun e => h e.symm)
      simp [bump, h, List.lookup, hb, ih]

theorem lookup_bump_ne (t : List (String × Nat)) (w w' : String) (h : w' ≠ w) :
    List.lookup w' (bump t w) = List.lookup w' t := by
  have hb : (w' == w) = false := beq_eq_false_iff_ne.mpr h
  induction t with
  | nil => simp [bump, List.lookup, hb]
  | cons p t ih =>
    obtain ⟨k, v⟩ := p
    by_cases hk : k = w
    · subst hk
      simp [bump, List.lookup, hb]
    · simp [bump, hk, List.lookup, ih]

theorem addCount_zero (o : Option Nat) : addCount o 0 = o := by
  cases o <;> simp [addCount]

theorem addCount_succ_left (o : Option Nat) (n : Nat) :
    addCount (some ((o.getD 0) + 1)) n = addCount o (n + 1) := by
  cases o with
  | none => simp [addCount, Nat.add_comm]
  | some v => simp [addCount]; omega

theorem lookup_foldl_countWord (ts : List String) (t : List (String × Nat)) (w : String) :
    List.lookup w (ts.foldl countWord t) =
      if 2 < w.length then addCount (List.lookup w t) (ts.count w)
      else List.lookup w t := by
  induction ts generalizing t with
  | nil => simp [addCount_zero]
  | cons a ts ih =>
    rw [List.foldl_cons, ih]
    by_cases hw : 2 < w.length
    · simp only [if_pos hw]
      by_cases ha : a = w
      · subst ha
        rw [List.count_cons_self]
        unfold countWord
        rw [if_pos hw, lookup_bump_self, addCount_succ_left]
      · rw [List.count_cons_of_ne (fun e => ha e.symm)]
        unfold countWord
        by_cases hl : 2 < a.length
        · rw [if_pos hl, lookup_bump_ne t a w (fun e => ha e.symm)]
        · rw [if_neg hl]
    · simp only [if_neg hw]
      unfold countWord
      by_cases hl : 2 < a.length
      · rw [if_pos hl, lookup_bump_ne t a w]
        intro e
        exact hw (e ▸ hl)
      · rw [if_neg hl]

theorem foldl_processSentence (word_tokenize : String → List String)
    (l : List String) (t : List (String × Nat)) :
    l.foldl (processSentence word_tokenize) t = (l.flatMap word_tokenize).foldl countWord t := by
  induction l generalizing t with
  | nil => simp
  | cons a l ih =>
    rw [List.foldl_cons, List.flatMap_cons, List.foldl_append, ih]
    rfl

theorem count_flatMap (word_tokenize : String → List String) (w : String)
    (l : List String) :
    (l.flatMap word_tokenize).count w = totalOccurrences word_tokenize w l := by
  induction l with
  | nil => simp [totalOccurrences]
  | cons a l ih =>
    rw [List.flatMap_cons, List.count_append, ih]
    simp [totalOccurrences, occurrences]

theorem lookup_create_bow_table (word_tokenize : String → List String)
    (flat_text : List String) (w : String) :
    List.lookup w (create_bow_table word_tokenize flat_text) =
      if 2 < w.length ∧ totalOccurrences word_tokenize w flat_text ≠ 0 then
        some (totalOccurrences word_tokenize w flat_text)
      else none := by
  unfold create_bow_table
  rw [foldl_processSentence, lookup_foldl_countWord, count_flatMap]
  by_cases hw : 2 < w.length
  · by_cases hz : totalOccurrences word_tokenize w flat_text = 0
    · simp [hw, hz, addCount, List.lookup]
    · simp [hw, hz, addCount, List.lookup]
  · simp [hw, List.lookup]

/-- Claim C1: for every finite sequence of cleaned sentences, the frequency
table built by `create_bow` maps each word `w` of length strictly greater
than 2 that occurs at all to exactly the number of tokenized occurrences of
`w` summed over all sentences (absent entries initialized to 1 on first
occurrence), and has no entry for any other word — in particular none for
words of length 2 or less. -/
theorem claim_C1 (word_tokenize : String → List String) (flat_text : List String)
    (w : String) :
    List.lookup w (create_bow_table word_tokenize flat_text) =
      if 2 < w.length ∧ totalOccurrences word_tokenize w flat_text ≠ 0 then
        some (totalOccurrences word_tokenize w flat_text)
      else none :=
  lookup_create_bow_table word_tokenize flat_text w

theorem keys_bump (t : List (String × Nat)) (w : String) :
    (bump t w).map Prod.fst =
      if w ∈ t.map Prod.fst then t.map Prod.fst else t.map Prod.fst ++ [w] := by
  induction t with
  | nil => simp [bump]
  | cons p t ih =>
    obtain ⟨k, v⟩ := p
    by_cases h : k = w
    · subst h
      simp [bump]
    · by_cases hm : w ∈ t.map Prod.fst
      · simp [bump, h, ih, hm, Ne.symm h]
      · simp [bump, h, ih, hm, Ne.symm h]

theorem nodup_keys_bump (t : List (String × Nat)) (w : String)
    (h : (t.map Prod.fst).Nodup) : ((bump t w).map Prod.fst).Nodup := by
  rw [keys_bump]
  by_cases hm : w ∈ t.map Prod.fst
  · simpa [hm] using h
  · rw [if_neg hm, List.nodup_append]
    refine ⟨h, by simp, ?_⟩
    intro x hx hxw
    rw [List.mem_singleton] at hxw
    exact hm (hxw ▸ hx)

theorem nodup_keys_foldl_countWord (ts : List String) (t : List (String × Nat))
    (h : (t.map Prod.fst).Nodup) : ((ts.foldl countWord t).map Prod.fst).Nodup := by
  induction ts generalizing t with
  | nil => exact h
  | cons a ts ih =>
    rw [List.foldl_cons]
    apply ih
    unfold countWord
    by_cases hl : 2 < a.length
    · rw [if_pos hl]
      exact nodup_keys_bump t a h
    · rwa [if_neg hl]

theorem nodup_keys_create_bow_table (word_tokenize : String → List String)
    (flat_text : List String) :
    ((create_bow_table word_tokenize flat_text).map Prod.fst).Nodup := by
  unfold create_bow_table
  rw [foldl_processSentence]
  exact nodup_keys_foldl_countWord _ [] (by simp)

theorem mem_iff_lookup (t : List (String × Nat)) (h : (t.map Prod.fst).Nodup)
    (w : String) (c : Nat) : (w, c) ∈ t ↔ List.lookup w t = some c := by
  induction t with
  | nil => simp [List.lookup]
  | cons p t ih =>
    obtain ⟨k, v⟩ := p
    rw [List.map_cons, List.nodup_cons] at h
    by_cases hk : w = k
    · subst hk
      have hnotin : (w, c) ∉ t := by
        intro hm
        exact h.1 (List.mem_map.mpr ⟨(w, c), hm, rfl⟩)
      simp only [List.mem_cons, List.lookup, beq_self_eq_true]
      constructor
      · rintro (he | ht)
        · rw [(Prod.mk.injEq _ _ _ _).mp he.symm |>.2]
        · exact absurd ht hnotin
      · intro hl
        left
        rw [Option.some_inj.mp hl]
    · have hb : (w == k) = false := beq_eq_false_iff_ne.mpr hk
      simp only [List.mem_cons, List.lookup, hb]
      rw [← ih h.2]
      constructor
      · rintro (he | ht)
        · exact absurd ((Prod.mk.injEq _ _ _ _).mp he).1 hk
        · exact ht
      · intro ht
        right
        exact ht

/-- Claim C9: the counting stage is order-insensitive — for every permutation
of the cleaned-sentence sequence, the resulting table has the same
word-to-count mapping: lookups agree everywhere and the tables are equal as
sets of (word, count) pairs. -/
theorem claim_C9 (word_tokenize : String → List String) (l₁ l₂ : List String)
    (hp : l₁.Perm l₂) :
    (∀ w, List.lookup w (create_bow_table word_tokenize l₁) =
      List.lookup w (create_bow_table word_tokenize l₂)) ∧
    (∀ p : String × Nat, p ∈ create_bow_table word_tokenize l₁ ↔
      p ∈ create_bow_table word_tokenize l₂) := by
  have htot : ∀ w, totalOccurrences word_tokenize w l₁ = totalOccurrences word_tokenize w l₂ :=
    fun w => List.Perm.sum_eq (hp.map (occurrences word_tokenize w))
  have hlook : ∀ w, List.lookup w (create_bow_table word_tokenize l₁) =
      List.lookup w (create_bow_table word_tokenize l₂) := by
    intro w
    rw [lookup_create_bow_table, lookup_create_bow_table, htot w]
  refine ⟨hlook, ?_⟩
  intro p
  obtain ⟨w, c⟩ := p
  rw [mem_iff_lookup _ (nodup_keys_create_bow_table word_tokenize l₁) w c,
    mem_iff_lookup _ (nodup_keys_create_bow_table word_tokenize l₂) w c, hlook w]

/-- Witness for C9 at a concrete permuted pair of sentence lists. -/
theorem claim_C9_witness :
    (["aaa bbb", "ccc"] : List String).Perm ["ccc", "aaa bbb"] ∧
    List.lookup "aaa" (create_bow_table wordsBySpace ["aaa bbb", "ccc"]) =
      List.lookup "aaa" (create_bow_table wordsBySpace ["ccc", "aaa bbb"]) ∧
    ((("bbb", 1) : String × Nat) ∈ create_bow_table wordsBySpace ["aaa bbb", "ccc"] ↔
      (("bbb", 1) : String × Nat) ∈ create_bow_table wordsBySpace ["ccc", "aaa bbb"]) :=
  ⟨by decide, (claim_C9 wordsBySpace _ _ (by decide)).1 "aaa",
    (claim_C9 wordsBySpace _ _ (by decide)).2 ("bbb", 1)⟩

theorem firstOccAux_congr (ts : List String) (s₁ s₂ : List String)
    (h : ∀ x, x ∈ s₁ ↔ x ∈ s₂) : firstOccAux s₁ ts = firstOccAux s₂ ts := by
  induction ts generalizing s₁ s₂ with
  | nil => rfl
  | cons w ts ih =>
    unfold firstOccAux
    by_cases hm : w ∈ s₁
    · rw [if_pos hm, if_pos ((h w).mp hm)]
      exact ih s₁ s₂ h
    · rw [if_neg hm, if_neg (fun hx => hm ((h w).mpr hx))]
      congr 1
      apply ih
      intro x
      simp [h x]

theorem keys_foldl_countWord (ts : List String) (t : List (String × Nat)) :
    (ts.foldl countWord t).map Prod.fst =
      t.map Prod.fst ++
        firstOccAux (t.map Prod.fst) (ts.filter fun w => decide (2 < w.length)) := by
  induction ts generalizing t with
  | nil => simp [firstOccAux]
  | cons a ts ih =>
    rw [List.foldl_cons]
    by_cases hl : 2 < a.length
    · rw [List.filter_cons_of_pos (by simpa using hl)]
      rw [show countWord t a = bump t a from by unfold countWord; rw [if_pos hl]]
      rw [ih (bump t a), keys_bump]
      by_cases hm : a ∈ t.map Prod.fst
      · rw [if_pos hm]
        simp only [firstOccAux]
        rw [if_pos hm]
      · rw [if_neg hm]
        simp only [firstOccAux]
        rw [if_neg hm, List.append_assoc, List.singleton_append]
        congr 1
        congr 1
        apply firstOccAux_congr
        intro x
        simp [or_comm]
    · rw [List.filter_cons_of_neg (by simpa using hl)]
      rw [show countWord t a = t from by unfold countWord; rw [if_neg hl]]
      exact ih t

theorem keys_create_bow_table (word_tokenize : String → List String)
    (flat_text : List String) :
    (create_bow_table word_tokenize flat_text).map Prod.fst =
      firstOccAux [] ((flat_text.flatMap word_tokenize).filter fun w => decide (2 < w.length)) := by
  unfold create_bow_table
  rw [foldl_processSentence, keys_foldl_countWord]
  simp

/-! ## Lemmas: the sort -/

theorem bowLE_trans (a b c : String × Nat) (h1 : bowLE a b = true) (h2 : bowLE b c = true) :
    bowLE a c = true := by
  simp only [bowLE, decide_eq_true_eq] at *
  omega

theorem bowLE_total (a b : String × Nat) : (bowLE a b || bowLE b a) = true := by
  simp only [bowLE, Bool.or_eq_true, decide_eq_true_eq]
  omega

theorem filter_mergeSort_count (t : List (String × Nat)) (c : Nat) :
    (t.mergeSort bowLE).filter (fun p => p.2 == c) = t.filter (fun p => p.2 == c) := by
  have hpair : (t.filter (fun p => p.2 == c)).Pairwise (fun a b => bowLE a b = true) := by
    apply List.pairwise_of_forall_mem_list
    intro a ha b hb
    rw [List.mem_filter] at ha hb
    have h1 : a.2 = c := by simpa using ha.2
    have h2 : b.2 = c := by simpa using hb.2
    simp [bowLE, h1, h2]
  have hsub : (t.filter (fun p => p.2 == c)).Sublist (t.mergeSort bowLE) :=
    List.sublist_mergeSort bowLE_trans bowLE_total hpair (List.filter_sublist t)
  have hsub2 : (t.filter (fun p => p.2 == c)).Sublist
      ((t.mergeSort bowLE).filter (fun p => p.2 == c)) := by
    have h3 := List.Sublist.filter (fun p : String × Nat => p.2 == c) hsub
    rwa [List.filter_filter, show (fun a : String × Nat => (a.2 == c) && (a.2 == c)) =
      (fun a : String × Nat => a.2 == c) from funext (fun a => Bool.and_self _)] at h3
  have hperm : ((t.mergeSort bowLE).filter (fun p => p.2 == c)).Perm
      (t.filter (fun p => p.2 == c)) :=
    List.Perm.filter _ (List.mergeSort_perm t bowLE)
  exact (hsub2.eq_of_length hperm.length_eq.symm).symm

/-- Claim C10 (implicit): the descending sort in `create_bow` is stable over
the table's insertion order — for each count value the sorted table restricted
to that count equals the unsorted table restricted to it — and the table's
insertion order is the first-occurrence order of the kept words (length > 2)
in the token stream; hence among equal counts the output is ordered by first
occurrence, deterministically. -/
theorem claim_C10 (word_tokenize : String → List String) (flat_text : List String)
    (c : Nat) :
    (create_bow word_tokenize flat_text).filter (fun p => p.2 == c) =
      (create_bow_table word_tokenize flat_text).filter (fun p => p.2 == c) ∧
    (create_bow_table word_tokenize flat_text).map Prod.fst =
      firstOccAux [] ((flat_text.flatMap word_tokenize).filter fun w => decide (2 < w.length)) :=
  ⟨filter_mergeSort_count _ c, keys_create_bow_table word_tokenize flat_text⟩

/-- Claim C5: the (word, count) rows written by the reporter are
non-increasing in count from the first row to the last. -/
theorem claim_C5 (word_tokenize : String → List String) (flat_text : List String)
    (BOW_LENGTH : Int) :
    (output_rows (create_bow word_tokenize flat_text) BOW_LENGTH).Pairwise
      (fun p q : String × Nat => q.2 ≤ p.2) := by
  have hs := List.sorted_mergeSort bowLE_trans bowLE_total
    (create_bow_table word_tokenize flat_text)
  have hs' : (create_bow word_tokenize flat_text).Pairwise
      (fun p q : String × Nat => q.2 ≤ p.2) := by
    unfold create_bow
    exact hs.imp (fun h => by simpa [bowLE] using h)
  exact List.Pairwise.sublist (List.take_sublist _ _) hs'

/-- Claim C4: the number of lines written by the reporter equals
`min(U, N)` when the requested length `N` is positive, and `U` (the number of
unique words) otherwise. -/
theorem claim_C4 (dict_sorted : List (String × Nat)) (BOW_LENGTH : Int) :
    (output_bow dict_sorted BOW_LENGTH).length =
      if 0 < BOW_LENGTH then min dict_sorted.length BOW_LENGTH.toNat
      else dict_sorted.length := by
  unfold output_bow output_rows
  rw [List.length_map, List.length_take]
  split_ifs <;> omega

/-! ## Sampler claims -/

/-- Claim C3: the sample returned by `pick_random` has length `min(M, K)` for
positive requested size `K` (and `M` otherwise), is a subset of the discovered
list, and has no duplicates when the discovered paths are distinct.  The
seeded `random.shuffle` enters as any function whose result is a permutation
of its input. -/
theorem claim_C3 (shuffle : List String → List String) (tei_files : List String)
    (DOCS_USED : Int) (hperm : (shuffle tei_files).Perm tei_files)
    (hnd : tei_files.Nodup) :
    (pick_random shuffle tei_files DOCS_USED).2.length =
      (if 0 < DOCS_USED then min tei_files.length DOCS_USED.toNat
       else tei_files.length) ∧
    (∀ x ∈ (pick_random shuffle tei_files DOCS_USED).2, x ∈ tei_files) ∧
    (pick_random shuffle tei_files DOCS_USED).2.Nodup := by
  refine ⟨?_, ?_, ?_⟩
  · show ((shuffle tei_files).take _).length = _
    rw [List.length_take, hperm.length_eq]
    split_ifs <;> omega
  · intro x hx
    exact hperm.subset (List.take_subset _ _ hx)
  · exact (List.take_sublist _ _).nodup (hperm.nodup_iff.mpr hnd)

/-- Witness for C3 at a concrete list, shuffle and requested size. -/
theorem claim_C3_witness :
    (List.reverse ["a", "b", "c"]).Perm ["a", "b", "c"] ∧
    (["a", "b", "c"] : List String).Nodup ∧
    ((pick_random List.reverse ["a", "b", "c"] 2).2.length =
      (if (0 : Int) < 2 then min (["a", "b", "c"] : List String).length (Int.toNat 2)
       else (["a", "b", "c"] : List String).length) ∧
    (∀ x ∈ (pick_random List.reverse ["a", "b", "c"] 2).2,
      x ∈ (["a", "b", "c"] : List String)) ∧
    (pick_random List.reverse ["a", "b", "c"] 2).2.Nodup) :=
  ⟨by decide, by decide, claim_C3 List.reverse ["a", "b", "c"] 2 (by decide) (by decide)⟩

/-- Counterexample to C8 as stated: `random.shuffle` permutes the discovered
list in place, so after sampling the list need not hold the same elements in
the same order.  With a two-element list and a seed whose first Fisher-Yates
draw swaps the pair (modelled by the permutation `List.reverse`), the
post-call list differs from the original. -/
theorem claim_C8_counterexample :
    (List.reverse ["a", "b"]).Perm ["a", "b"] ∧
    (pick_random List.reverse ["a", "b"] 1).1 ≠ ["a", "b"] := by
  decide

/-- Claim C8 as amended: the sampler's only effect on the discovered list is
the in-place shuffle — afterwards the list is a permutation of the original
(same elements, generally in a different order) — and both the post-call list
and the returned sample are deterministic functions of the input list and the
seeded shuffle: the post-call list is `shuffle tei_files` and the sample is
its prefix of the clamped length. -/
theorem claim_C8 (shuffle : List String → List String) (tei_files : List String)
    (DOCS_USED : Int) (hperm : (shuffle tei_files).Perm tei_files) :
    ((pick_random shuffle tei_files DOCS_USED).1).Perm tei_files ∧
    (pick_random shuffle tei_files DOCS_USED).1 = shuffle tei_files ∧
    (pick_random shuffle tei_files DOCS_USED).2 =
      (shuffle tei_files).take
        (if DOCS_USED ≤ 0 ∨ (tei_files.length : Int) < DOCS_USED then tei_files.length
         else DOCS_USED.toNat) :=
  ⟨hperm, rfl, rfl⟩

/-- Witness for the amended C8 at a concrete list, shuffle and size. -/
theorem claim_C8_witness :
    (List.reverse ["a", "b"]).Perm ["a", "b"] ∧
    (((pick_random List.reverse ["a", "b"] 1).1.Perm ["a", "b"]) ∧
    (pick_random List.reverse ["a", "b"] 1).1 = List.reverse ["a", "b"] ∧
    (pick_random List.reverse ["a", "b"] 1).2 =
      (List.reverse ["a", "b"]).take
        (if (1 : Int) ≤ 0 ∨ ((["a", "b"] : List String).length : Int) < 1 then
          (["a", "b"] : List String).length
         else Int.toNat 1)) :=
  ⟨by decide, claim_C8 List.reverse ["a", "b"] 1 (by decide)⟩

/-! ## Lemmas: splitting at the body marker -/

theorem bodySplit_marker (rest : List Char) :
    bodySplit ('<' :: 'b' :: 'o' :: 'd' :: 'y' :: '>' :: rest) = [] :: bodySplit rest := by
  simp [bodySplit]

theorem bodySplit_cons (c : Char) (rest : List Char)
    (h : ∀ r : List Char, c :: rest ≠ '<' :: 'b' :: 'o' :: 'd' :: 'y' :: '>' :: r) :
    bodySplit (c :: rest) = consHead c (bodySplit rest) := by
  rw [bodySplit.eq_def]
  split
  · rename_i r heq
    exact absurd heq (h r)
  · rename_i c' rest' hne heq
    injection heq with h1 h2
    subst h1; subst h2
    rfl
  · rename_i heq
    simp at heq

theorem marker_head_of_eq (c : Char) (rest : List Char) (r : List Char)
    (heq : c :: rest = '<' :: 'b' :: 'o' :: 'd' :: 'y' :: '>' :: r) :
    containsBody (c :: rest) = true := by
  rw [heq]
  simp [containsBody, bodyMarker, List.isPrefixOf]

theorem no_marker_head (c : Char) (rest : List Char) (h : containsBody (c :: rest) = false) :
    ∀ r : List Char, c :: rest ≠ '<' :: 'b' :: 'o' :: 'd' :: 'y' :: '>' :: r := by
  intro r heq
  rw [marker_head_of_eq c rest r heq] at h
  exact Bool.noConfusion h

theorem containsBody_cons_false (c : Char) (rest : List Char)
    (h : containsBody (c :: rest) = false) : containsBody rest = false := by
  have h' := h
  simp only [containsBody, Bool.or_eq_false_iff] at h'
  exact h'.2

/-- A marker-free text splits into a single segment (so `tei_body[1]` does
not exist). -/
theorem bodySplit_of_not_contains (l : List Char) (h : containsBody l = false) :
    bodySplit l = [l] := by
  induction l with
  | nil => rfl
  | cons c rest ih =>
    rw [bodySplit_cons c rest (no_marker_head c rest h)]
    rw [ih (containsBody_cons_false c rest h)]
    rfl

/-- No occurrence of the marker can start inside a marker-free prefix `pre`
and reach across into an adjacent literal marker: `<body>` starts with `'<'`
and contains no further `'<'`, so it cannot overlap itself at the boundary. -/
theorem no_marker_at_boundary (pre s : List Char) (hpre : containsBody pre = false)
    (hne : pre ≠ []) :
    ∀ r : List Char,
      pre ++ ('<' :: 'b' :: 'o' :: 'd' :: 'y' :: '>' :: s) ≠
        '<' :: 'b' :: 'o' :: 'd' :: 'y' :: '>' :: r := by
  intro r heq
  match pre, hne with
  | [c1], _ =>
    simp only [List.cons_append, List.nil_append, List.cons.injEq] at heq
    exact absurd heq.2.1 (by decide)
  | [c1, c2], _ =>
    simp only [List.cons_append, List.nil_append, List.cons.injEq] at heq
    exact absurd heq.2.2.1 (by decide)
  | [c1, c2, c3], _ =>
    simp only [List.cons_append, List.nil_append, List.cons.injEq] at heq
    exact absurd heq.2.2.2.1 (by decide)
  | [c1, c2, c3, c4], _ =>
    simp only [List.cons_append, List.nil_append, List.cons.injEq] at heq
    exact absurd heq.2.2.2.2.1 (by decide)
  | [c1, c2, c3, c4, c5], _ =>
    simp only [List.cons_append, List.nil_append, List.cons.injEq] at heq
    exact absurd heq.2.2.2.2.2.1 (by decide)
  | c1 :: c2 :: c3 :: c4 :: c5 :: c6 :: pre', _ =>
    simp only [List.cons_append, List.cons.injEq] at heq
    obtain ⟨e1, e2, e3, e4, e5, e6, _⟩ := heq
    subst e1; subst e2; subst e3; subst e4; subst e5; subst e6
    rw [marker_head_of_eq _ _ pre' rfl] at hpre
    exact Bool.noConfusion hpre

/-- Splitting a text that begins with a marker-free prefix followed by the
literal marker: the prefix becomes the first segment. -/
theorem bodySplit_append_marker (pre t : List Char) (hpre : containsBody pre = false) :
    bodySplit (pre ++ ('<' :: 'b' :: 'o' :: 'd' :: 'y' :: '>' :: t)) = pre :: bodySplit t := by
  induction pre with
  | nil => simpa using bodySplit_marker t
  | cons c pre' ih =>
    have hb := no_marker_at_boundary (c :: pre') t hpre (by simp)
    rw [List.cons_append]
    rw [bodySplit_cons c (pre' ++ ('<' :: 'b' :: 'o' :: 'd' :: 'y' :: '>' :: t)) ?hnm]
    case hnm =>
      intro r
      have h' := hb r
      rwa [List.cons_append] at h'
    rw [ih (containsBody_cons_false c pre' hpre)]
    rfl

/-! ## Extraction claims -/

theorem extract_doc_no_marker (sent_tokenize : List Char → List (List Char))
    (tei : List Char) (h : containsBody tei = false) :
    extract_doc sent_tokenize tei = Except.error "IndexError" := by
  unfold extract_doc
  rw [bodySplit_of_not_contains tei h]

/-- Each run of `extract_doc` either raises the modelled `IndexError` or
returns sentences. -/
theorem extract_doc_cases (sent_tokenize : List Char → List (List Char))
    (tei : List Char) :
    extract_doc sent_tokenize tei = Except.error "IndexError" ∨
      ∃ v, extract_doc sent_tokenize tei = Except.ok v := by
  unfold extract_doc
  cases hbs : bodySplit tei with
  | nil => left; rfl
  | cons a rest =>
    cases rest with
    | nil => left; rfl
    | cons b r => right; exact ⟨_, rfl⟩

theorem extract_tei_error_of_mem (sent_tokenize : List Char → List (List Char))
    (tei : List Char) (h : containsBody tei = false) :
    ∀ (docs : List (List Char)) (acc : List (List Char)), tei ∈ docs →
      docs.foldlM
        (fun flat_text t => (extract_doc sent_tokenize t).map (fun s => flat_text ++ s)) acc =
        Except.error "IndexError" := by
  intro docs
  induction docs with
  | nil =>
    intro acc hm
    simp at hm
  | cons d ds ih =>
    intro acc hm
    rw [List.foldlM_cons]
    rcases List.mem_cons.mp hm with he | ht
    · have hd : containsBody d = false := he ▸ h
      rw [extract_doc_no_marker sent_tokenize d hd]
      rfl
    · rcases extract_doc_cases sent_tokenize d with herr | ⟨v, hok⟩
      · rw [herr]
        rfl
      · rw [hok]
        exact ih (acc ++ v) ht

/-- Claim C7: a document whose content lacks the `<body>` marker is a fatal
error — `tei_body[1]` raises an index error — and when such a document is in
the processed list the whole extraction aborts with that error; the file is
neither silently skipped nor contributes sentences. -/
theorem claim_C7 (sent_tokenize : List Char → List (List Char)) (tei : List Char)
    (tei_files : List (List Char)) (h : containsBody tei = false)
    (hmem : tei ∈ tei_files) :
    extract_doc sent_tokenize tei = Except.error "IndexError" ∧
    extract_tei sent_tokenize tei_files = Except.error "IndexError" :=
  ⟨extract_doc_no_marker sent_tokenize tei h,
    extract_tei_error_of_mem sent_tokenize tei h tei_files [] hmem⟩

/-- Witness for C7: a list with one well-formed document and one document
without the marker. -/
theorem claim_C7_witness :
    containsBody (String.toList "geen marker hier") = false ∧
    String.toList "geen marker hier" ∈
      [String.toList "x<body>aa bb", String.toList "geen marker hier"] ∧
    (extract_doc sentIdent (String.toList "geen marker hier") =
        Except.error "IndexError" ∧
      extract_tei sentIdent
        [String.toList "x<body>aa bb", String.toList "geen marker hier"] =
        Except.error "IndexError") :=
  ⟨by decide, by decide, claim_C7 sentIdent _ _ (by decide) (by decide)⟩

/-- Counterexample to C2 as stated: on a document in which `<body>` occurs
twice, the code processes only `tei_body[1]`, the segment strictly between
the first and second occurrences — not everything after the first occurrence,
which is what `extract_doc_spec` (the spec's words) does.  The two results
differ on the concrete document `"a<body>bb cc<body>dd ee"`. -/
theorem claim_C2_counterexample :
    extract_doc sentIdent (String.toList "a<body>bb cc<body>dd ee") ≠
      extract_doc_spec sentIdent (String.toList "a<body>bb cc<body>dd ee") := by
  decide

/-- Claim C2 as amended: for a document whose marker occurs exactly once
(`pre ++ <body> ++ mid` with `pre`, `mid` marker-free), everything after the
marker is processed; when the marker occurs again (`pre ++ <body> ++ mid ++
<body> ++ s`), only the segment strictly between the first and second
occurrences is processed, and only that text contributes sentences. -/
theorem claim_C2 (sent_tokenize : List Char → List (List Char))
    (pre mid s : List Char) (hpre : containsBody pre = false)
    (hmid : containsBody mid = false) :
    extract_doc sent_tokenize (pre ++ bodyMarker ++ mid) =
      Except.ok (processBody sent_tokenize mid) ∧
    extract_doc sent_tokenize (pre ++ bodyMarker ++ (mid ++ bodyMarker ++ s)) =
      Except.ok (processBody sent_tokenize mid) := by
  constructor
  · unfold extract_doc
    rw [List.append_assoc]
    rw [show pre ++ (bodyMarker ++ mid) = pre ++ ('<' :: 'b' :: 'o' :: 'd' :: 'y' :: '>' :: mid) from rfl]
    rw [bodySplit_append_marker pre mid hpre]
    rw [bodySplit_of_not_contains mid hmid]
  · unfold extract_doc
    rw [List.append_assoc]
    rw [show pre ++ (bodyMarker ++ (mid ++ bodyMarker ++ s)) =
      pre ++ ('<' :: 'b' :: 'o' :: 'd' :: 'y' :: '>' :: (mid ++ bodyMarker ++ s)) from rfl]
    rw [bodySplit_append_marker pre (mid ++ bodyMarker ++ s) hpre]
    rw [List.append_assoc]
    rw [show mid ++ (bodyMarker ++ s) = mid ++ ('<' :: 'b' :: 'o' :: 'd' :: 'y' :: '>' :: s) from rfl]
    rw [bodySplit_append_marker mid s hmid]

/-- Witness for the amended C2 at a concrete prefix, body segment and tail. -/
theorem claim_C2_witness :
    containsBody (String.toList "a") = false ∧
    containsBody (String.toList "bb cc") = false ∧
    (extract_doc sentIdent (String.toList "a" ++ bodyMarker ++ String.toList "bb cc") =
        Except.ok (processBody sentIdent (String.toList "bb cc")) ∧
      extract_doc sentIdent
          (String.toList "a" ++ bodyMarker ++
            (String.toList "bb cc" ++ bodyMarker ++ String.toList "dd")) =
        Except.ok (processBody sentIdent (String.toList "bb cc"))) :=
  ⟨by decide, by decide, claim_C2 sentIdent _ _ _ (by decide) (by decide)⟩

/-! ## Discovery claims -/

/-- Counterexample to C6 as stated: on a missing (or unreadable) root path,
`os.walk` with its default `onerror=None` yields no entries, so `get_files`
silently returns the empty list; it does not fail with a `NotFound`
condition, diverging from `get_files_spec` (the spec's words). -/
theorem claim_C6_counterexample :
    get_files "root" none = [] ∧
    get_files_spec "root" none = Except.error "NotFound" ∧
    Except.ok (get_files "root" none) ≠ get_files_spec "root" none :=
  ⟨rfl, rfl, by decide⟩

/-- Claim C6 as amended: discovery never fails — on a missing or unreadable
root it silently returns the empty file list (and the run then proceeds with
zero documents); on a readable root it returns the walk results. -/
theorem claim_C6 (path_batch : String) :
    get_files path_batch none = [] ∧
    ∀ t : FSTree, get_files path_batch (some t) = walkTree path_batch t :=
  ⟨rfl, fun _ => rfl⟩

end BowDbnl
